import Mathlib

/-!
Verification of the memoire capture/encode/index pipeline.

Shallow embedding of the Rust sources under src/: the SQLite layer
(memoire-db: migrations.rs, queries.rs), the OCR confidence heuristic
(memoire-ocr/engine.rs), the perceptual frame hash (memoire-capture/screen.rs),
the per-monitor recorder and its chunk-finalized event bus
(memoire-core/recorder.rs, memoire-processing/encoder.rs), the WAV
save/load pair (memoire-processing/audio_encoder.rs, memoire-stt/engine.rs),
the TDT greedy decoding loop (memoire-stt/engine.rs) and the tokenizer
(memoire-stt/tokenizer.rs).

Machine floats (f32) are modelled as exact rationals; machine integers as
Nat/Int with explicit reductions modulo 2 ^ 64 where the source wraps.
Strings are modelled as lists of characters, fallible operations as Except.
-/

namespace Memoire

/-! ## Rust character and string primitives -/

/-- Rust char::is_whitespace: the Unicode White_Space property. -/
def rustIsWhitespace (c : Char) : Bool :=
  c.toNat = 0x20 || (0x9 ≤ c.toNat && c.toNat ≤ 0xD) || c.toNat = 0x85 ||
  c.toNat = 0xA0 || c.toNat = 0x1680 ||
  (0x2000 ≤ c.toNat && c.toNat ≤ 0x200A) ||
  c.toNat = 0x2028 || c.toNat = 0x2029 || c.toNat = 0x202F ||
  c.toNat = 0x205F || c.toNat = 0x3000

/-- Rust str::trim_start. -/
def rustTrimStart (s : List Char) : List Char := s.dropWhile rustIsWhitespace

/-- Rust str::trim_end. -/
def rustTrimEnd (s : List Char) : List Char :=
  (s.reverse.dropWhile rustIsWhitespace).reverse

/-- Rust str::trim (trims whitespace from both ends). -/
def rustTrim (s : List Char) : List Char := rustTrimEnd (rustTrimStart s)

/-- The double-quote character. -/
def dquote : Char := '\"'

/-- Rust str::replace with a single-char pattern: every occurrence of pat
is replaced by the string rep. -/
def rustReplaceChar (s : List Char) (pat : Char) (rep : List Char) : List Char :=
  s.flatMap (fun c => if c = pat then rep else [c])

/-! ## C4: FTS5 query sanitization (memoire-db/src/queries.rs lines 13 to 31)
and its caller (memoire-web/src/routes/api.rs), which hands the sanitized
string to get_search_count / search_ocr where it is bound to the FTS
MATCH operator parameter. -/
/-- Embedding of queries.rs sanitize_fts5_query: trim, reject empty,
wrap in double quotes, doubling internal double quotes when present. -/
def sanitize_fts5_query (query : List Char) : Except (List Char) (List Char) :=
  let trimmed := rustTrim query
  if trimmed.isEmpty then
    Except.error ("Search query cannot be empty".data)
  else
    let sanitized :=
      if trimmed.contains dquote then
        dquote :: (rustReplaceChar trimmed dquote [dquote, dquote] ++ [dquote])
      else
        dquote :: (trimmed ++ [dquote])
    Except.ok sanitized

/-- Embedding of the api.rs search handler prologue: clamp limit and offset,
sanitize the query (errors become BadRequest), and return the triple of
arguments given to search_ocr, whose first component is bound to the
FTS5 MATCH operator. -/
def api_search_ocr_args (q : List Char) (limitParam offsetParam : Option ℤ) :
    Except (List Char) ((List Char) × ℤ × ℤ) :=
  let limit := min (max (limitParam.getD 50) 1) 100
  let offset := max (offsetParam.getD 0) 0
  match sanitize_fts5_query q with
  | Except.error e => Except.error e
  | Except.ok s => Except.ok (s, limit, offset)

/-- The shape the claim describes: the trimmed query wrapped in double
quotes with every internal double quote doubled. -/
def ftsQuoteWrap (s : List Char) : List Char :=
  dquote :: ((s.flatMap fun c => if c = dquote then [dquote, dquote] else [c]) ++ [dquote])

/-! ## C3: OCR confidence heuristic (memoire-ocr/src/engine.rs lines 160 to 192)

The source iterates over the chars of the recognized word, querying the Rust
Unicode classification predicates, and uses the UTF-8 byte length of the
text. A character is modelled by its byte length and the four classification
bits the heuristic reads; f32 scores by exact rationals. -/
/-- A Rust char as seen by Engine::estimate_confidence: its UTF-8 byte
length and the results of is_lowercase, is_uppercase, is_numeric and
is_alphabetic. -/
structure RustChar where
  utf8Len : ℕ
  isLowercase : Bool
  isUppercase : Bool
  isNumeric : Bool
  isAlphabetic : Bool
deriving DecidableEq

/-- Rust str::len: the UTF-8 byte length of the text. -/
def textByteLen (t : List RustChar) : ℕ := (t.map RustChar.utf8Len).sum

/-- Rust f32::clamp on exact rationals. -/
def rustClampQ (x lo hi : ℚ) : ℚ := min (max x lo) hi

/-- Embedding of engine.rs Engine::estimate_confidence. -/
def estimate_confidence (t : List RustChar) : ℚ :=
  if t.isEmpty then 0
  else
    let score : ℚ := 7/10
    let lenBonus : ℚ := min ((textByteLen t : ℚ) / 20) (15/100)
    let score := score + lenBonus
    let hasLower := t.any RustChar.isLowercase
    let hasUpper := t.any RustChar.isUppercase
    let hasDigit := t.any RustChar.isNumeric
    let score := if hasLower && hasUpper then score + 5/100 else score
    let score := if hasDigit && (hasLower || hasUpper) then score + 5/100 else score
    let score := if t.all (fun c => c.isUppercase || !c.isAlphabetic)
      then score - 1/10 else score
    let score := if t.all RustChar.isNumeric then score - 15/100 else score
    rustClampQ score 0 1

/-- The formula claimed by the spec sentence, written verbatim: base 0.70
plus 0.15 times min(len/20, 1), plus the case and digit bonuses, minus the
all-caps and all-digits penalties, clamped to the unit interval; 0 for the
empty string. -/
def claimedConfidenceC3 (t : List RustChar) : ℚ :=
  if t.isEmpty then 0
  else
    rustClampQ (7/10 + (15/100) * min ((textByteLen t : ℚ) / 20) 1
      + (if t.any RustChar.isLowercase && t.any RustChar.isUppercase
          then 5/100 else 0)
      + (if t.any RustChar.isNumeric
            && (t.any RustChar.isLowercase || t.any RustChar.isUppercase)
          then 5/100 else 0)
      - (if t.all (fun c => c.isUppercase || !c.isAlphabetic) then 1/10 else 0)
      - (if t.all RustChar.isNumeric then 15/100 else 0)) 0 1

/-- The amended formula: the length bonus is min(len/20, 0.15) — the byte
length divided by 20, capped at 0.15 — instead of 0.15 times min(len/20, 1).
All other terms are as the claim states them. -/
def amendedConfidenceC3 (t : List RustChar) : ℚ :=
  if t.isEmpty then 0
  else
    rustClampQ (7/10 + min ((textByteLen t : ℚ) / 20) (15/100)
      + (if t.any RustChar.isLowercase && t.any RustChar.isUppercase
          then 5/100 else 0)
      + (if t.any RustChar.isNumeric
            && (t.any RustChar.isLowercase || t.any RustChar.isUppercase)
          then 5/100 else 0)
      - (if t.all (fun c => c.isUppercase || !c.isAlphabetic) then 1/10 else 0)
      - (if t.all RustChar.isNumeric then 15/100 else 0)) 0 1

/-- A lowercase ASCII letter as seen by the heuristic. -/
def lowerAsciiChar : RustChar := ⟨1, true, false, false, true⟩

/-- The four-letter lowercase word abcd. -/
def abcdText : List RustChar :=
  [lowerAsciiChar, lowerAsciiChar, lowerAsciiChar, lowerAsciiChar]

/-! ## C10: tokenizer decoding (memoire-stt/src/tokenizer.rs lines 116 to 134) -/
/-- The SentencePiece word boundary marker U+2581. -/
def wordBoundaryChar : Char := Char.ofNat 0x2581

/-- The tokenizer state decode reads: the id-to-token map (HashMap get)
and the blank token id. -/
structure Tokenizer where
  idToToken : ℤ → Option (List Char)
  blankId : ℤ

/-- Embedding of tokenizer.rs Tokenizer::decode: skip blank ids, look up
each remaining id, replace the word boundary marker with a space, append,
and trim the result. -/
def Tokenizer.decode (tk : Tokenizer) (tokens : List ℤ) : List Char :=
  let result := tokens.foldl
    (fun acc id =>
      if id = tk.blankId then acc
      else
        match tk.idToToken id with
        | some token =>
            acc ++ token.map (fun c => if c = wordBoundaryChar then ' ' else c)
        | none => acc)
    []
  rustTrim result

/-- A tiny concrete tokenizer: token 0 is the word hi, blank id is 2. -/
def tokenizerWitness : Tokenizer :=
  ⟨fun id => if id = 0 then some ('h' :: ['i']) else none, 2⟩

/-! ## C1: the v1 migration versus the insert statements
(memoire-db/src/migrations.rs lines 38 to 143, queries.rs lines 34 to 95)

The column lists below are transcribed from the SQL text in the source:
the CREATE TABLE statements of migrate_v1, and the column lists of the
INSERT statements of insert_video_chunk and insert_frames_batch. SQLite
rejects an INSERT naming a column the table does not have, so an insert
succeeds against a schema only if every statement column is a table column. -/
/-- Columns of video_chunks as created by migrate_v1. -/
def migrateV1VideoChunksColumns : List String :=
  ["id", "file_path", "device_name", "created_at"]

/-- Columns of frames as created by migrate_v1. -/
def migrateV1FramesColumns : List String :=
  ["id", "video_chunk_id", "offset_index", "timestamp",
   "app_name", "window_name", "browser_url", "focused"]

/-- Columns named by the INSERT of insert_video_chunk. -/
def insertVideoChunkStmtColumns : List String :=
  ["file_path", "device_name", "width", "height"]

/-- Columns named by the INSERT of insert_frames_batch (and insert_frame). -/
def insertFramesStmtColumns : List String :=
  ["video_chunk_id", "offset_index", "timestamp", "app_name",
   "window_name", "browser_url", "focused", "frame_hash"]

/-- VideoChunk columns of the section-3 data model (spec and schema.rs). -/
def dataModelVideoChunkColumns : List String :=
  ["id", "file_path", "device_name", "created_at", "width", "height"]

/-- Frame columns of the section-3 data model (spec and schema.rs). -/
def dataModelFrameColumns : List String :=
  ["id", "video_chunk_id", "offset_index", "timestamp", "app_name",
   "window_name", "browser_url", "focused", "frame_hash"]

/-- SQLite accepts an INSERT against a table schema only when every column
the statement names exists in the table. -/
def sqliteInsertColumnsOk (tableCols stmtCols : List String) : Bool :=
  stmtCols.all (fun c => tableCols.contains c)

/-! ## C5: batched frame insertion (memoire-db/src/queries.rs lines 63 to 95)

The frames table and the transaction machinery of insert_frames_batch:
a statement executes against the transaction view; commit publishes it;
an early return through the question-mark operator drops the transaction,
which rolls back, leaving readers with the original state. The realistic
statement failure (with foreign_keys=ON) is a foreign-key violation on
video_chunk_id. -/
/-- A row of NewVideoChunk as passed to insert_video_chunk. -/
structure NewVideoChunk where
  filePath : List Char
  deviceName : List Char
  width : Option ℕ
  height : Option ℕ
deriving DecidableEq

/-- A row of NewFrame as passed to insert_frame / insert_frames_batch. -/
structure NewFrame where
  videoChunkId : ℤ
  offsetIndex : ℤ
  timestamp : ℤ
  appName : Option (List Char)
  windowName : Option (List Char)
  browserUrl : Option (List Char)
  focused : Bool
  frameHash : Option ℤ
deriving DecidableEq

/-- The database state the frame queries touch: the video_chunks rows, the
frames rows (each with its rowid) and the two rowid counters. -/
structure FramesDb where
  videoChunks : List (ℤ × NewVideoChunk)
  nextChunkRowid : ℤ
  frames : List (ℤ × NewFrame)
  nextFrameRowid : ℤ
deriving DecidableEq

/-- Embedding of queries.rs insert_video_chunk: INSERT the row and return
last_insert_rowid. -/
def insert_video_chunk (db : FramesDb) (c : NewVideoChunk) : FramesDb × ℤ :=
  ({ db with videoChunks := db.videoChunks ++ [(db.nextChunkRowid, c)],
             nextChunkRowid := db.nextChunkRowid + 1 },
   db.nextChunkRowid)

/-- One execution of the prepared INSERT INTO frames statement: with
foreign keys on, it fails unless video_chunk_id references an existing
video_chunks row; on success it appends the row and returns
last_insert_rowid. -/
def frameInsertStmt (db : FramesDb) (f : NewFrame) :
    Except (List Char) (FramesDb × ℤ) :=
  if (db.videoChunks.map Prod.fst).contains f.videoChunkId then
    Except.ok
      ({ db with frames := db.frames ++ [(db.nextFrameRowid, f)],
                 nextFrameRowid := db.nextFrameRowid + 1 },
       db.nextFrameRowid)
  else Except.error ("FOREIGN KEY constraint failed".data)

/-- The statement loop of insert_frames_batch, threading the transaction
view and collecting last_insert_rowid after each execute. -/
def insertFramesGo (tx : FramesDb) :
    List NewFrame → Except (List Char) (FramesDb × List ℤ)
  | [] => Except.ok (tx, [])
  | f :: rest =>
    match frameInsertStmt tx f with
    | Except.error e => Except.error e
    | Except.ok (tx2, rid) =>
      match insertFramesGo tx2 rest with
      | Except.error e => Except.error e
      | Except.ok (txf, ids) => Except.ok (txf, rid :: ids)

/-- Embedding of queries.rs insert_frames_batch: empty input short-circuits
to an empty id list; otherwise all statements run inside one transaction,
commit publishes the new rows, and an error drops the transaction so the
visible state is unchanged. The first component is the state visible to
readers afterwards. -/
def insert_frames_batch (db : FramesDb) (frames : List NewFrame) :
    FramesDb × Except (List Char) (List ℤ) :=
  if frames.isEmpty then (db, Except.ok [])
  else
    match insertFramesGo db frames with
    | Except.ok (tx, ids) => (tx, Except.ok ids)
    | Except.error e => (db, Except.error e)

/-! ## C9: WAV save / load round trip
(memoire-processing/src/audio_encoder.rs lines 135 to 156 and
memoire-stt/src/engine.rs lines 293 to 333)

f32 samples are modelled as exact rationals. Rust numeric casts from f32
to i16 truncate toward zero and saturate. -/
/-- Truncation toward zero, the rounding of a Rust float-to-int cast. -/
def rustTruncToInt (x : ℚ) : ℤ := if 0 ≤ x then ⌊x⌋ else ⌈x⌉

/-- Rust as-cast from f32 to i16: truncate toward zero and saturate to
the i16 range. -/
def f32_as_i16 (x : ℚ) : ℤ := max (-32768) (min 32767 (rustTruncToInt x))

/-- Embedding of AudioEncoder::save_wav sample conversion: clamp to the
unit interval, scale by i16::MAX = 32767, cast to i16. -/
def save_wav_samples (samples : List ℚ) : List ℤ :=
  samples.map (fun s => f32_as_i16 (rustClampQ s (-1) 1 * 32767))

/-- Embedding of SttEngine::load_audio for a 16-bit integer WAV: each
sample is divided by 1 shifted left by 15, that is 32768 (mono input, so
no channel mixing). -/
def load_wav_samples_16bit (ints : List ℤ) : List ℚ :=
  ints.map (fun s : ℤ => (s : ℚ) / 32768)

/-- Save then load. -/
def wav_round_trip (samples : List ℚ) : List ℚ :=
  load_wav_samples_16bit (save_wav_samples samples)

/-- A concrete chunk row for the C5 witness database. -/
def witnessChunk : NewVideoChunk := ⟨'v' :: [], 'm' :: [], some 8, some 8⟩

/-- A concrete database holding one video chunk with rowid 1. -/
def witnessDb : FramesDb := ⟨[(1, witnessChunk)], 2, [], 1⟩

/-- A frame row referencing the existing chunk 1. -/
def witnessFrameOk : NewFrame := ⟨1, 0, 0, none, none, none, true, some 7⟩

/-- A frame row referencing the missing chunk 9. -/
def witnessFrameBad : NewFrame := ⟨9, 1, 0, none, none, none, true, none⟩

/-! ## C6: TDT greedy decoding loop (memoire-stt/src/engine.rs lines 472 to 639)

The decoder, joiner and their LSTM states are external ONNX sessions: each
loop iteration obtains a best token (argmax over the vocabulary) and a raw
skip (argmax index over the duration head when present, or the initialized
value 1 when absent). The oracle below supplies those two values as an
arbitrary function of the visible loop state, which covers every possible
model output including the hidden session states. -/
/-- One iteration worth of model output: the argmax token and the skip
value after the duration-argmax block of the source (an argmax index, hence
nonnegative, or 1 when the model has no duration head; the embedding allows
any integer, which only strengthens the result). -/
structure TdtPrediction where
  bestToken : ℤ
  rawSkip : ℤ

/-- The mutable loop state of decode_tdt_static: the time index t, the
previous token fed to the decoder, the per-frame emission counter and the
accumulated tokens and timestamps. -/
structure TdtState where
  t : ℤ
  prevToken : ℤ
  tokensThisFrame : ℕ
  tokens : List ℤ
  timestamps : List ℤ
deriving DecidableEq

/-- Embedding of one iteration body of decode_tdt_static after the joiner
argmaxes: emit a non-blank token, reset the counter when skip is positive,
force skip to 1 when the counter reaches max_tokens_per_frame = 5, force
skip to 1 when the token is blank and skip is 0, then advance t by
max(skip, 1). -/
def decode_tdt_step (blankId : ℤ) (p : TdtPrediction) (s : TdtState) : TdtState :=
  let s :=
    if p.bestToken ≠ blankId then
      { s with tokens := s.tokens ++ [p.bestToken],
               timestamps := s.timestamps ++ [s.t],
               prevToken := p.bestToken,
               tokensThisFrame := s.tokensThisFrame + 1 }
    else s
  let skip := p.rawSkip
  let sk := if skip > 0 then ({ s with tokensThisFrame := 0 }, skip) else (s, skip)
  let sk :=
    if sk.1.tokensThisFrame ≥ 5 then ({ sk.1 with tokensThisFrame := 0 }, 1)
    else sk
  let sk :=
    if p.bestToken = blankId ∧ sk.2 = 0 then ({ sk.1 with tokensThisFrame := 0 }, 1)
    else sk
  { sk.1 with t := sk.1.t + max sk.2 1 }

/-- The while loop of decode_tdt_static, with explicit fuel: none means the
fuel ran out with the loop still running. -/
def decode_tdt_loop (blankId : ℤ) (oracle : TdtState → TdtPrediction)
    (encoderLen : ℕ) : ℕ → TdtState → Option TdtState
  | 0, s => if s.t < (encoderLen : ℤ) then none else some s
  | fuel + 1, s =>
    if s.t < (encoderLen : ℤ) then
      decode_tdt_loop blankId oracle encoderLen fuel
        (decode_tdt_step blankId (oracle s) s)
    else some s

/-- Embedding of decode_tdt_static: start at t = 0 with prev_token = blank
and empty outputs, and run the loop; encoderLen steps of fuel are supplied,
which the termination theorem shows to be enough. -/
def decode_tdt_static (blankId : ℤ) (oracle : TdtState → TdtPrediction)
    (encoderLen : ℕ) : Option (List ℤ × List ℤ) :=
  (decode_tdt_loop blankId oracle encoderLen encoderLen
    ⟨0, blankId, 0, [], []⟩).map (fun s => (s.tokens, s.timestamps))

/-! ## C8: the perceptual frame hash (memoire-capture/src/screen.rs lines 46 to 109)

The per-pixel and per-block u64 accumulations cannot overflow for any frame
whose byte buffer actually exists, so they are modelled on Nat; the
degenerate small-image path uses wrapping_add in the source and is modelled
with an explicit reduction modulo 2 ^ 64. -/
/-- Population count worker, structurally recursive on a fuel argument
(n itself always suffices as fuel, since the binary length of n is at
most n). -/
def popcountAux : ℕ → ℕ → ℕ
  | 0, _ => 0
  | fuel + 1, n => if n = 0 then 0 else n % 2 + popcountAux fuel (n / 2)

/-- Population count: the number of set bits. -/
def popcount (n : ℕ) : ℕ := popcountAux n n

/-- Embedding of CapturedFrame::hash_distance: popcount of the xor. -/
def hash_distance (h1 h2 : ℕ) : ℕ := popcount (h1 ^^^ h2)

/-- A captured RGBA frame: raw bytes, dimensions, capture timestamp. -/
structure CapturedFrame where
  data : List ℕ
  width : ℕ
  height : ℕ
  timestamp : ℤ
deriving DecidableEq

/-- Integer-scaled luminance of one pixel, as in the source:
(r * 299 + g * 587 + b * 114) / 1000. -/
def lum (r g b : ℕ) : ℕ := (r * 299 + g * 587 + b * 114) / 1000

/-- Byte access f.data.get(i), 0 out of bounds (the source guards every
read with an explicit bound check). -/
def byteAt (f : CapturedFrame) (i : ℕ) : ℕ := f.data.getD i 0

/-- The two sampling loops of one block of compute_perceptual_hash:
accumulate luminance sum and pixel count over y in start_y..end_y and
x in start_x..end_x, reading a pixel only when idx + 2 is in bounds. -/
def codeBlockSumCount (f : CapturedFrame) (startX endX startY endY : ℕ) :
    ℕ × ℕ :=
  (List.range' startY (endY - startY)).foldl
    (fun sc y =>
      (List.range' startX (endX - startX)).foldl
        (fun sc x =>
          let idx := (y * f.width + x) * 4
          if idx + 2 < f.data.length then
            (sc.1 + lum (byteAt f idx) (byteAt f (idx + 1)) (byteAt f (idx + 2)),
             sc.2 + 1)
          else sc)
        sc)
    (0, 0)

/-- Embedding of CapturedFrame::compute_perceptual_hash: an 8 by 8 grid of
block luminance averages compared against their integer mean, bit i set
when block i is at least the mean (row-major, low bit first); if a block
dimension is zero the wrapping sum of the raw bytes is returned instead. -/
def compute_perceptual_hash (f : CapturedFrame) : ℕ :=
  let blockW := f.width / 8
  let blockH := f.height / 8
  if blockW = 0 ∨ blockH = 0 then
    f.data.foldl (fun acc b => (acc + b) % 2 ^ 64) 0
  else
    let blockValues := (List.range 64).map (fun i =>
      let startY := i / 8 * blockH
      let startX := i % 8 * blockW
      let endY := min (startY + blockH) f.height
      let endX := min (startX + blockW) f.width
      let sc := codeBlockSumCount f startX endX startY endY
      if 0 < sc.2 then sc.1 / sc.2 else 0)
    let mean := blockValues.sum / 64
    (List.range 64).foldl
      (fun h i => if blockValues.getD i 0 ≥ mean then h ||| (1 <<< i) else h) 0

/-- The luminance of the pixel at row y, column x, per the claim. -/
def lumAt (f : CapturedFrame) (y x : ℕ) : ℕ :=
  lum (byteAt f ((y * f.width + x) * 4)) (byteAt f ((y * f.width + x) * 4 + 1))
    (byteAt f ((y * f.width + x) * 4 + 2))

/-- The claim formula for block i of the 8 by 8 grid: the average of the
integer-scaled luminances over the block (row-major block order, block
dimensions width/8 by height/8). -/
def specBlockAvg (f : CapturedFrame) (i : ℕ) : ℕ :=
  (((List.range (f.height / 8)).map (fun dy =>
      ((List.range (f.width / 8)).map (fun dx =>
        lumAt f (i / 8 * (f.height / 8) + dy) (i % 8 * (f.width / 8) + dx))).sum)).sum)
    / (f.width / 8 * (f.height / 8))

/-- The claim formula for the mean of all 64 block averages. -/
def specMean (f : CapturedFrame) : ℕ :=
  (((List.range 64).map (specBlockAvg f)).sum) / 64

/-! ## C2 and C7: the video encoder and the per-monitor recorder
(memoire-processing/src/encoder.rs lines 85 to 238,
memoire-core/src/recorder.rs lines 99 to 236)

The recorder is constructed with use_piped_encoding = true, so the piped
branch of the encoder is modelled. The ffmpeg output path is modelled by
the pair of the encoder chunk index and the chunk start time it is built
from; the written raw frames are kept as a log so the model can state what
was fed to the encoder. Wall-clock conditions (the 5 second flush interval)
enter as an explicit boolean input, and Utc::now() as the frame timestamp. -/
/-- Rust cast of an i64 second count to u64 (two's complement wrap). -/
def i64_as_u64 (z : ℤ) : ℕ := (z % 2 ^ 64).toNat

/-- Rust cast of a u64 hash to i64 for SQLite storage. -/
def u64_as_i64 (n : ℕ) : ℤ :=
  if n < 2 ^ 63 then (n : ℤ) else (n : ℤ) - 2 ^ 64

/-- The state of VideoEncoder in piped mode: frame counter, chunk start
time, encoder chunk index, whether the ffmpeg stdin pipe is open, the
output path recorded when the pipe was opened, and the log of raw frames
written to the pipe. -/
structure EncoderState where
  frameCount : ℕ
  chunkStartTime : Option ℤ
  chunkIndex : ℕ
  pipeOpen : Bool
  currentOutputPath : Option (ℕ × ℤ)
  framesWritten : List (List ℕ)
deriving DecidableEq

/-- Embedding of VideoEncoder::finalize_chunk (piped mode): nothing to do
at frame count 0; otherwise close the pipe, take the output path, reset the
per-chunk state and advance the encoder chunk index. The png fallback
branch (pipe not open) likewise resets and reports the path it would
assemble from the start time, or fails without one. -/
def VideoEncoder.finalize_chunk (e : EncoderState) :
    EncoderState × Option (ℕ × ℤ) :=
  if e.frameCount = 0 then (e, none)
  else if e.pipeOpen then
    ({ e with frameCount := 0, chunkStartTime := none,
              chunkIndex := e.chunkIndex + 1, pipeOpen := false,
              currentOutputPath := none },
     e.currentOutputPath)
  else
    match e.chunkStartTime with
    | some st =>
      ({ e with frameCount := 0, chunkStartTime := none,
                chunkIndex := e.chunkIndex + 1, currentOutputPath := none },
       some (e.chunkIndex, st))
    | none => (e, none)

/-- Embedding of VideoEncoder::add_frame (piped mode): set the chunk start
time on the first frame, open the ffmpeg pipe if needed (recording the
output path), write the raw frame, bump the frame count, and when the
elapsed seconds since the chunk start reach the configured duration,
finalize the chunk internally — discarding the returned path. -/
def VideoEncoder.add_frame (chunkDurationSecs : ℕ) (e : EncoderState)
    (frameData : List ℕ) (ts : ℤ) : EncoderState :=
  let e :=
    if e.chunkStartTime.isNone then { e with chunkStartTime := some ts } else e
  let e :=
    if e.pipeOpen = false then
      { e with pipeOpen := true,
               currentOutputPath := some (e.chunkIndex, e.chunkStartTime.getD 0) }
    else e
  let e := { e with framesWritten := e.framesWritten ++ [frameData],
                    frameCount := e.frameCount + 1 }
  match e.chunkStartTime with
  | some start =>
    if chunkDurationSecs ≤ i64_as_u64 (ts - start) then
      (VideoEncoder.finalize_chunk e).1
    else e
  | none => e

/-- The chunk-finalized event published on the broadcast bus. -/
structure ChunkFinalizedEvent where
  chunkId : ℤ
  videoPath : ℕ × ℤ
  monitorName : List Char
deriving DecidableEq

/-- The per-monitor recorder state of MonitorRecorder, with the events
sent on the broadcast bus collected into a list. -/
structure MonitorRecorderState where
  monitorName : List Char
  monitorWidth : ℕ
  monitorHeight : ℕ
  enc : EncoderState
  currentChunkId : Option ℤ
  frameIndex : ℤ
  chunkIndex : ℕ
  pendingFrames : List NewFrame
  lastFrameHash : Option ℕ
  skippedFrames : ℕ
  events : List ChunkFinalizedEvent
deriving DecidableEq

/-- Embedding of MonitorRecorder::flush_frames: nothing pending is a
no-op; otherwise one insert_frames_batch call, clearing the buffer on
success; on failure the question-mark operator propagates the error with
the buffer intact and the database rolled back. -/
def MonitorRecorder.flush_frames (s : MonitorRecorderState) (db : FramesDb) :
    Except (List Char) (MonitorRecorderState × FramesDb) :=
  if s.pendingFrames.isEmpty then Except.ok (s, db)
  else
    match insert_frames_batch db s.pendingFrames with
    | (db2, Except.ok _) => Except.ok ({ s with pendingFrames := [] }, db2)
    | (_, Except.error e) => Except.error e

/-- Embedding of MonitorRecorder::start_new_chunk: insert a video_chunks
row carrying the monitor name and dimensions (the path text, assembled
from the sanitized name and timestamp, is abstracted to the monitor name),
record the returned id and reset the frame index. -/
def MonitorRecorder.start_new_chunk (s : MonitorRecorderState) (db : FramesDb) :
    MonitorRecorderState × FramesDb :=
  let c : NewVideoChunk :=
    ⟨s.monitorName, s.monitorName, some s.monitorWidth, some s.monitorHeight⟩
  let r := insert_video_chunk db c
  ({ s with currentChunkId := some r.2, frameIndex := 0 }, r.1)

/-- The accept path of MonitorRecorder::capture_frame, after the dedup
check: remember the hash, allocate a chunk if none, buffer the frame row
(hash stored as i64), feed the raw frame to the encoder, bump the frame
index, and flush when the batch is full or the flush interval elapsed. -/
def MonitorRecorder.capture_accept (chunkDurationSecs : ℕ)
    (s : MonitorRecorderState) (db : FramesDb) (frame : CapturedFrame)
    (frameHash : ℕ) (flushIntervalElapsed : Bool) :
    MonitorRecorderState × FramesDb × Except (List Char) Bool :=
  let s := { s with lastFrameHash := some frameHash }
  let sdb :=
    if s.currentChunkId.isNone then MonitorRecorder.start_new_chunk s db
    else (s, db)
  match sdb.1.currentChunkId with
  | none =>
    (sdb.1, sdb.2, Except.error ("failed to initialize chunk_id after retry".data))
  | some chunkId =>
    let s := sdb.1
    let db := sdb.2
    let newFrame : NewFrame :=
      ⟨chunkId, s.frameIndex, frame.timestamp, none, none, none, true,
        some (u64_as_i64 frameHash)⟩
    let s := { s with pendingFrames := s.pendingFrames ++ [newFrame] }
    let s := { s with
      enc := VideoEncoder.add_frame chunkDurationSecs s.enc frame.data
        frame.timestamp }
    let s := { s with frameIndex := s.frameIndex + 1 }
    if 30 ≤ s.pendingFrames.length ∨ flushIntervalElapsed then
      match MonitorRecorder.flush_frames s db with
      | Except.ok (s2, db2) => (s2, db2, Except.ok true)
      | Except.error e => (s, db, Except.error e)
    else (s, db, Except.ok true)

/-- Embedding of MonitorRecorder::capture_frame: no frame is a no-op;
otherwise compute the perceptual hash, drop the frame (counting it) when a
previous hash exists within Hamming distance DEFAULT_DEDUP_THRESHOLD = 5,
and accept it otherwise. -/
def MonitorRecorder.capture_frame (chunkDurationSecs : ℕ)
    (s : MonitorRecorderState) (db : FramesDb)
    (captured : Option CapturedFrame) (flushIntervalElapsed : Bool) :
    MonitorRecorderState × FramesDb × Except (List Char) Bool :=
  match captured with
  | none => (s, db, Except.ok false)
  | some frame =>
    let frameHash := compute_perceptual_hash frame
    match s.lastFrameHash with
    | some lastHash =>
      if hash_distance frameHash lastHash ≤ 5 then
        ({ s with skippedFrames := s.skippedFrames + 1 }, db, Except.ok false)
      else
        MonitorRecorder.capture_accept chunkDurationSecs s db frame frameHash
          flushIntervalElapsed
    | none =>
      MonitorRecorder.capture_accept chunkDurationSecs s db frame frameHash
        flushIntervalElapsed

/-- Embedding of MonitorRecorder::finalize_chunk: flush pending rows, let
the encoder finalize, and only when the encoder returned a path emit a
ChunkFinalizedEvent for the current chunk id on the bus and bump the
recorder chunk index; finally clear the current chunk id. This is the only
place an event is sent. -/
def MonitorRecorder.finalize_chunk (s : MonitorRecorderState) (db : FramesDb) :
    Except (List Char) (MonitorRecorderState × FramesDb) :=
  match MonitorRecorder.flush_frames s db with
  | Except.error e => Except.error e
  | Except.ok (s1, db1) =>
    let r := VideoEncoder.finalize_chunk s1.enc
    let s2 := { s1 with enc := r.1 }
    let s3 :=
      match r.2 with
      | some path =>
        let s4 :=
          match s2.currentChunkId with
          | some cid =>
            { s2 with events := s2.events ++
                [ChunkFinalizedEvent.mk cid path s2.monitorName] }
          | none => s2
        { s4 with chunkIndex := s4.chunkIndex + 1 }
      | none => s2
    Except.ok ({ s3 with currentChunkId := none }, db1)

/-- The rows a reader can associate with a monitor: the committed frames
rows followed by the in-memory pending buffer. -/
def rowsView (db : FramesDb) (s : MonitorRecorderState) : List NewFrame :=
  db.frames.map Prod.snd ++ s.pendingFrames

/-- A one-pixel frame whose degenerate hash is 0. -/
def zeroPixelFrame : CapturedFrame := ⟨[0, 0, 0, 0], 1, 1, 0⟩

/-- A recorder state that has already accepted a frame with hash 0. -/
def witnessRecState : MonitorRecorderState :=
  ⟨'M' :: [], 1, 1, ⟨0, none, 0, false, none, []⟩, none, 0, 0, [], some 0, 0, []⟩

/-! ## C2: no ChunkFinalizedEvent on duration rollover

A concrete two-frame trace with chunk_duration_secs = 5: the first frame
arrives at t = 0, the second at t = 5, with perceptual hashes 0 and 255
(Hamming distance 8, so both are accepted). During the second
VideoEncoder::add_frame the elapsed time reaches the threshold and the
encoder finalizes the chunk internally, discarding the path; the
event-sending MonitorRecorder::finalize_chunk never runs, so the bus sees
nothing. -/
/-- An empty database for the C2 trace. -/
def c2Db : FramesDb := ⟨[], 1, [], 1⟩

/-- First captured frame, 1 by 1 pixel, timestamp 0, degenerate hash 0. -/
def c2Frame1 : CapturedFrame := ⟨[0, 0, 0, 0], 1, 1, 0⟩

/-- Second captured frame, timestamp 5, degenerate hash 255. -/
def c2Frame2 : CapturedFrame := ⟨[255, 0, 0, 0], 1, 1, 5⟩

/-- The fresh per-monitor recorder state for the C2 trace. -/
def c2State0 : MonitorRecorderState :=
  ⟨'M' :: [], 1, 1, ⟨0, none, 0, false, none, []⟩, none, 0, 0, [], none, 0, []⟩

/-- The trace after the first frame (chunk allocated, encoder pipe opened). -/
def c2Step1 : MonitorRecorderState × FramesDb × Except (List Char) Bool :=
  MonitorRecorder.capture_frame 5 c2State0 c2Db (some c2Frame1) false

/-- The trace after the second frame (duration threshold reached inside
the encoder). -/
def c2Step2 : MonitorRecorderState × FramesDb × Except (List Char) Bool :=
  MonitorRecorder.capture_frame 5 c2Step1.1 c2Step1.2.1 (some c2Frame2) false

/-- An all-black 8 by 8 RGBA frame. -/
def zeroFrame8 : CapturedFrame := ⟨List.replicate 256 0, 8, 8, 0⟩

/-! ## Theorems -/

theorem rustReplaceChar_id_of_not_mem (s : List Char)
    (h : dquote ∉ s) :
    rustReplaceChar s dquote [dquote, dquote] = s := by
  induction s with
  | nil => rfl
  | cons c cs ih =>
    simp only [List.mem_cons, not_or] at h
    have hc : ¬ c = dquote := fun hcq => h.1 hcq.symm
    simp only [rustReplaceChar, List.flatMap_cons, if_neg hc]
    have := ih h.2
    simp only [rustReplaceChar] at this
    simp [this]

/-- Claim C4: sanitize_fts5_query errors exactly on whitespace-only input;
otherwise it returns the trimmed query wrapped in double quotes with
internal double quotes doubled, and that exact string is what the API
search handler passes through as the FTS MATCH argument. -/
theorem c4_sanitize_fts5_query (q : List Char) :
    ((sanitize_fts5_query q).isOk = true ↔ rustTrim q ≠ [])
    ∧ (∀ s, sanitize_fts5_query q = Except.ok s → s = ftsQuoteWrap (rustTrim q))
    ∧ (∀ lim off, (api_search_ocr_args q lim off).map (fun a => a.1) =
        sanitize_fts5_query q) := by
  refine ⟨?_, ?_, ?_⟩
  · constructor
    · intro hok hnil
      unfold sanitize_fts5_query at hok
      rw [if_pos (by simp [hnil])] at hok
      simp [Except.isOk, Except.toBool] at hok
    · intro hne
      unfold sanitize_fts5_query
      rw [if_neg (by simpa [List.isEmpty_iff] using hne)]
      rfl
  · intro s hs
    unfold sanitize_fts5_query at hs
    by_cases h : (rustTrim q).isEmpty
    · rw [if_pos h] at hs
      cases hs
    · rw [if_neg h] at hs
      by_cases hc : (rustTrim q).contains dquote
      · rw [if_pos hc] at hs
        cases hs
        rfl
      · rw [if_neg hc] at hs
        cases hs
        unfold ftsQuoteWrap
        rw [show ((rustTrim q).flatMap fun c =>
            if c = dquote then [dquote, dquote] else [c]) =
            rustReplaceChar (rustTrim q) dquote [dquote, dquote] from rfl]
        rw [rustReplaceChar_id_of_not_mem _ (by simpa using hc)]
  · intro lim off
    unfold api_search_ocr_args
    cases h : sanitize_fts5_query q with
    | error e => simp [h, Except.map]
    | ok s => simp [h, Except.map]

/-- Witness for C4 at the concrete query consisting of a space, the word
ab, a double quote and a space: a successful sanitization whose output is
the quoted escaped trim, passed through to the MATCH argument. -/
theorem c4_witness :
    (sanitize_fts5_query (' ' :: 'a' :: 'b' :: dquote :: [' '])).isOk = true
    ∧ sanitize_fts5_query (' ' :: 'a' :: 'b' :: dquote :: [' ']) =
        Except.ok (ftsQuoteWrap (rustTrim (' ' :: 'a' :: 'b' :: dquote :: [' ']))) := by
  have h1 := (c4_sanitize_fts5_query (' ' :: 'a' :: 'b' :: dquote :: [' '])).1.mpr
      (by decide)
  refine ⟨h1, ?_⟩
  have h := (c4_sanitize_fts5_query (' ' :: 'a' :: 'b' :: dquote :: [' '])).2.1
  cases hs : sanitize_fts5_query (' ' :: 'a' :: 'b' :: dquote :: [' ']) with
  | error e => rw [hs] at h1; simp [Except.isOk, Except.toBool] at h1
  | ok s => rw [h s hs]

/-- Claim C3 counterexample: on the word abcd the code yields
0.70 + min(4/20, 0.15) = 0.85, while the claimed formula yields
0.70 + 0.15 * min(4/20, 1) = 0.73. -/
theorem c3_counterexample :
    estimate_confidence abcdText = 17/20
    ∧ claimedConfidenceC3 abcdText = 73/100
    ∧ estimate_confidence abcdText ≠ claimedConfidenceC3 abcdText := by
  have e1 : estimate_confidence abcdText = 17/20 := by
    unfold estimate_confidence
    norm_num [abcdText, lowerAsciiChar, textByteLen, rustClampQ, min_def, max_def]
  have e2 : claimedConfidenceC3 abcdText = 73/100 := by
    unfold claimedConfidenceC3
    norm_num [abcdText, lowerAsciiChar, textByteLen, rustClampQ, min_def, max_def]
  refine ⟨e1, e2, ?_⟩
  rw [e1, e2]
  norm_num

/-- Claim C3 as amended: for every recognized text the code confidence
equals clamp(0.70 + min(len/20, 0.15) + 0.05 mixed case + 0.05 digits with
letters - 0.10 if no lowercase alphabetic char - 0.15 if all digits, 0, 1),
and the empty string gets confidence 0. -/
theorem c3_confidence_amended (t : List RustChar) :
    estimate_confidence t = amendedConfidenceC3 t := by
  unfold estimate_confidence amendedConfidenceC3
  by_cases ht : t.isEmpty
  · rw [if_pos ht, if_pos ht]
  · rw [if_neg ht, if_neg ht]
    dsimp only
    rcases Bool.eq_false_or_eq_true
        (t.any RustChar.isLowercase && t.any RustChar.isUppercase) with h1 | h1 <;>
      rcases Bool.eq_false_or_eq_true
        (t.any RustChar.isNumeric
          && (t.any RustChar.isLowercase || t.any RustChar.isUppercase)) with h2 | h2 <;>
      rcases Bool.eq_false_or_eq_true
        (t.all fun c => c.isUppercase || !c.isAlphabetic) with h3 | h3 <;>
      rcases Bool.eq_false_or_eq_true (t.all RustChar.isNumeric) with h4 | h4 <;>
      simp only [h1, h2, h3, h4, Bool.false_eq_true, if_true, if_false,
        eq_self_iff_true] <;>
      (congr 1; ring)

theorem decode_foldl_filter (tk : Tokenizer) (ts : List ℤ) (acc : List Char) :
    ts.foldl
      (fun acc id =>
        if id = tk.blankId then acc
        else
          match tk.idToToken id with
          | some token =>
              acc ++ token.map (fun c => if c = wordBoundaryChar then ' ' else c)
          | none => acc)
      acc =
    (ts.filter (fun id => id ≠ tk.blankId)).foldl
      (fun acc id =>
        if id = tk.blankId then acc
        else
          match tk.idToToken id with
          | some token =>
              acc ++ token.map (fun c => if c = wordBoundaryChar then ' ' else c)
          | none => acc)
      acc := by
  induction ts generalizing acc with
  | nil => rfl
  | cons id rest ih =>
    by_cases hid : id = tk.blankId
    · simp only [List.foldl_cons, if_pos hid, List.filter_cons]
      rw [if_neg (by simp [hid])]
      exact ih acc
    · simp only [List.foldl_cons, if_neg hid, List.filter_cons]
      rw [if_pos (by simp [hid])]
      simp only [List.foldl_cons, if_neg hid]
      exact ih _

/-- Claim C10: Tokenizer::decode ignores the blank token — decoding a
token sequence equals decoding the sequence with all blank ids removed,
and a sequence of only blank ids decodes to the empty string. -/
theorem c10_decode_ignores_blank (tk : Tokenizer) (ts : List ℤ) :
    tk.decode ts = tk.decode (ts.filter (fun id => id ≠ tk.blankId))
    ∧ ((∀ id ∈ ts, id = tk.blankId) → tk.decode ts = []) := by
  constructor
  · unfold Tokenizer.decode
    rw [decode_foldl_filter]
  · intro hall
    unfold Tokenizer.decode
    rw [decode_foldl_filter]
    have : ts.filter (fun id => id ≠ tk.blankId) = [] := by
      rw [List.filter_eq_nil_iff]
      intro a ha
      simp [hall a ha]
    rw [this]
    rfl

/-- Witness for C10 at the all-blank sequence 2, 2 under the concrete
tokenizer: it decodes to the empty string. -/
theorem c10_witness : Tokenizer.decode tokenizerWitness [2, 2] = [] :=
  (c10_decode_ignores_blank tokenizerWitness [2, 2]).2 (by decide)

/-- Claim C1 refuted by the code: on the schema created by migrate_v1,
insert_video_chunk names the columns width and height and
insert_frames_batch names frame_hash, none of which migrate_v1 creates,
so both inserts fail on a freshly migrated database even though the
section-3 data model (and the rest of the code) includes those columns. -/
theorem c1_migration_missing_columns :
    sqliteInsertColumnsOk migrateV1VideoChunksColumns insertVideoChunkStmtColumns
      = false
    ∧ sqliteInsertColumnsOk migrateV1FramesColumns insertFramesStmtColumns
      = false
    ∧ ("width" ∈ dataModelVideoChunkColumns
        ∧ "height" ∈ dataModelVideoChunkColumns
        ∧ "frame_hash" ∈ dataModelFrameColumns)
    ∧ ("width" ∉ migrateV1VideoChunksColumns
        ∧ "height" ∉ migrateV1VideoChunksColumns
        ∧ "frame_hash" ∉ migrateV1FramesColumns) := by
  refine ⟨by decide, by decide, by decide, by decide⟩

theorem insertFramesGo_ok (fs : List NewFrame) :
    ∀ (tx txf : FramesDb) (ids : List ℤ),
    insertFramesGo tx fs = Except.ok (txf, ids) →
    ids = (List.range fs.length).map (fun i : ℕ => tx.nextFrameRowid + (i : ℤ))
    ∧ txf.frames = tx.frames ++ ids.zip fs
    ∧ txf.videoChunks = tx.videoChunks
    ∧ txf.nextChunkRowid = tx.nextChunkRowid
    ∧ txf.nextFrameRowid = tx.nextFrameRowid + fs.length := by
  induction fs with
  | nil =>
    intro tx txf ids h
    simp only [insertFramesGo] at h
    cases h
    simp
  | cons f rest ih =>
    intro tx txf ids h
    simp only [insertFramesGo] at h
    cases hstmt : frameInsertStmt tx f with
    | error e => exact Except.noConfusion (hstmt ▸ h)
    | ok p =>
      obtain ⟨tx2, rid⟩ := p
      simp only [hstmt] at h
      cases hgo : insertFramesGo tx2 rest with
      | error e =>
        simp only [hgo] at h
        exact Except.noConfusion h
      | ok q =>
        obtain ⟨txf2, ids2⟩ := q
        simp only [hgo, Except.ok.injEq, Prod.mk.injEq] at h
        obtain ⟨h1, h2⟩ := h
        subst h1
        subst h2
        obtain ⟨hids, hframes, hchunks, hnextc, hnextf⟩ := ih tx2 txf2 ids2 hgo
        unfold frameInsertStmt at hstmt
        by_cases hfk : (tx.videoChunks.map Prod.fst).contains f.videoChunkId
        · rw [if_pos hfk] at hstmt
          simp only [Except.ok.injEq, Prod.mk.injEq] at hstmt
          obtain ⟨htx2, hrid⟩ := hstmt
          subst htx2
          subst hrid
          refine ⟨?_, ?_, ?_, ?_, ?_⟩
          · rw [hids]
            simp only [List.length_cons, List.range_succ_eq_map, List.map_cons,
              List.map_map]
            refine congrArg₂ List.cons (by simp) ?_
            apply List.map_congr_left
            intro i _
            simp only [Function.comp_apply]
            push_cast
            ring
          · rw [hframes, hids]
            simp only [List.length_cons, List.range_succ_eq_map, List.map_cons,
              List.map_map, List.zip_cons_cons]
            simp [List.append_assoc]
          · simpa using hchunks
          · simpa using hnextc
          · rw [hnextf]
            simp only [List.length_cons]
            push_cast
            ring
        · rw [if_neg hfk] at hstmt
          cases hstmt

theorem insert_frames_batch_ok (db : FramesDb) (fs : List NewFrame)
    (db2 : FramesDb) (ids : List ℤ)
    (h : insert_frames_batch db fs = (db2, Except.ok ids)) :
    ids = (List.range fs.length).map (fun i : ℕ => db.nextFrameRowid + (i : ℤ))
    ∧ db2.frames = db.frames ++ ids.zip fs
    ∧ db2.videoChunks = db.videoChunks
    ∧ db2.nextChunkRowid = db.nextChunkRowid
    ∧ db2.nextFrameRowid = db.nextFrameRowid + fs.length := by
  unfold insert_frames_batch at h
  by_cases he : fs.isEmpty
  · rw [if_pos he] at h
    simp only [Prod.mk.injEq, Except.ok.injEq] at h
    obtain ⟨h1, h2⟩ := h
    subst h1
    subst h2
    rw [List.isEmpty_iff] at he
    subst he
    simp
  · rw [if_neg he] at h
    cases hgo : insertFramesGo db fs with
    | error e =>
      simp only [hgo, Prod.mk.injEq] at h
      exact Except.noConfusion h.2
    | ok p =>
      obtain ⟨tx, ids2⟩ := p
      simp only [hgo, Prod.mk.injEq, Except.ok.injEq] at h
      obtain ⟨h1, h2⟩ := h
      subst h1
      subst h2
      exact insertFramesGo_ok fs db tx ids2 hgo

theorem insert_frames_batch_error (db : FramesDb) (fs : List NewFrame)
    (db2 : FramesDb) (e : List Char)
    (h : insert_frames_batch db fs = (db2, Except.error e)) : db2 = db := by
  unfold insert_frames_batch at h
  by_cases he : fs.isEmpty
  · rw [if_pos he] at h
    simp at h
  · rw [if_neg he] at h
    cases hgo : insertFramesGo db fs with
    | error e2 =>
      simp only [hgo, Prod.mk.injEq] at h
      exact h.1.symm
    | ok p =>
      obtain ⟨tx, ids⟩ := p
      simp only [hgo, Prod.mk.injEq] at h
      exact absurd h.2 (by simp)

/-- Claim C5: insert_frames_batch is atomic and order-preserving — the
empty batch yields an empty id list and no change; a successful batch
appends exactly the input rows in order, returning their fresh consecutive
rowids positionally matched to the input; a failed batch leaves the
reader-visible state untouched. -/
theorem c5_insert_frames_batch (db : FramesDb) (fs : List NewFrame) :
    (fs = [] → insert_frames_batch db fs = (db, Except.ok []))
    ∧ (∀ db2 ids, insert_frames_batch db fs = (db2, Except.ok ids) →
        ids.length = fs.length
        ∧ ids = (List.range fs.length).map (fun i : ℕ => db.nextFrameRowid + (i : ℤ))
        ∧ db2.frames = db.frames ++ ids.zip fs
        ∧ db2.videoChunks = db.videoChunks)
    ∧ (∀ db2 e, insert_frames_batch db fs = (db2, Except.error e) →
        db2 = db) := by
  refine ⟨?_, ?_, ?_⟩
  · intro h; subst h; rfl
  · intro db2 ids h
    obtain ⟨hids, hframes, hchunks, _, _⟩ := insert_frames_batch_ok db fs db2 ids h
    exact ⟨by rw [hids]; simp, hids, hframes, hchunks⟩
  · intro db2 e h
    exact insert_frames_batch_error db fs db2 e h

/-- Witness for C5: a successful singleton batch returns rowid 1 and
appends the row, and a batch containing a foreign-key-violating row
leaves the database unchanged. -/
theorem c5_witness :
    ([1] : List ℤ).length = [witnessFrameOk].length
    ∧ ([1] : List ℤ) = (List.range [witnessFrameOk].length).map
        (fun i : ℕ => witnessDb.nextFrameRowid + (i : ℤ))
    ∧ (⟨[(1, witnessChunk)], 2, [(1, witnessFrameOk)], 2⟩ : FramesDb).frames =
        witnessDb.frames ++ ([1] : List ℤ).zip [witnessFrameOk]
    ∧ (insert_frames_batch witnessDb [witnessFrameOk, witnessFrameBad]).1 =
        witnessDb := by
  have hok : insert_frames_batch witnessDb [witnessFrameOk] =
      ((⟨[(1, witnessChunk)], 2, [(1, witnessFrameOk)], 2⟩ : FramesDb),
        Except.ok [1]) := rfl
  have h2 := (c5_insert_frames_batch witnessDb [witnessFrameOk]).2.1
    ⟨[(1, witnessChunk)], 2, [(1, witnessFrameOk)], 2⟩ [1] hok
  have hbad : insert_frames_batch witnessDb [witnessFrameOk, witnessFrameBad] =
      (witnessDb, Except.error ("FOREIGN KEY constraint failed".data)) := rfl
  have h3 := (c5_insert_frames_batch witnessDb [witnessFrameOk, witnessFrameBad]).2.2
    witnessDb ("FOREIGN KEY constraint failed".data) hbad
  exact ⟨h2.1, h2.2.1, h2.2.2.1, by rw [hbad]⟩

theorem wav_sample_err (s : ℚ) (h1 : -1 ≤ s) (h2 : s ≤ 1) :
    |s - (f32_as_i16 (rustClampQ s (-1) 1 * 32767) : ℚ) / 32768| ≤ 1/16384 := by
  have hclamp : rustClampQ s (-1) 1 = s := by
    unfold rustClampQ
    rw [max_eq_left h1, min_eq_left h2]
  rw [hclamp]
  unfold f32_as_i16 rustTruncToInt
  by_cases hs : 0 ≤ s * 32767
  · rw [if_pos hs]
    have hfl : (⌊s * 32767⌋ : ℚ) ≤ s * 32767 := Int.floor_le _
    have hfg : s * 32767 - 1 < (⌊s * 32767⌋ : ℚ) := Int.sub_one_lt_floor _
    have hub : ⌊s * 32767⌋ ≤ 32767 := by
      have hlt : ⌊s * 32767⌋ < 32768 := Int.floor_lt.mpr (by push_cast; linarith)
      omega
    have hlb : (0 : ℤ) ≤ ⌊s * 32767⌋ := Int.floor_nonneg.mpr hs
    rw [min_eq_right hub, max_eq_right (by linarith)]
    rw [abs_le]
    have hcast : ((⌊s * 32767⌋ : ℤ) : ℚ) = (⌊s * 32767⌋ : ℚ) := rfl
    constructor
    · linarith [hfl]
    · linarith [hfg]
  · rw [if_neg hs]
    push_neg at hs
    have hcl : s * 32767 ≤ (⌈s * 32767⌉ : ℚ) := Int.le_ceil _
    have hcu : (⌈s * 32767⌉ : ℚ) < s * 32767 + 1 := Int.ceil_lt_add_one _
    have hub : ⌈s * 32767⌉ ≤ 32767 := by
      have h0 : (⌈s * 32767⌉ : ℚ) < 32768 := by linarith
      have h3 : ⌈s * 32767⌉ < 32768 := by exact_mod_cast h0
      omega
    have hlb : (-32768 : ℤ) ≤ ⌈s * 32767⌉ := by
      have hge : (-32768 : ℚ) ≤ s * 32767 := by linarith
      have h3 : (-32768 : ℚ) ≤ (⌈s * 32767⌉ : ℚ) := le_trans hge hcl
      exact_mod_cast h3
    rw [min_eq_right hub, max_eq_right hlb]
    rw [abs_le]
    constructor
    · linarith [hcu]
    · linarith [hcl]

/-- Claim C9 counterexample: the exactly representable sample 65533/65536
saves to the integer 32765 and loads back as 32765/32768, an error of
3/65536, which exceeds the claimed bound 1/32767. -/
theorem c9_counterexample :
    wav_round_trip [(65533 : ℚ)/65536] = [(32765 : ℚ)/32768]
    ∧ |(65533 : ℚ)/65536 - (32765 : ℚ)/32768| = 3/65536
    ∧ ¬ (|(65533 : ℚ)/65536 - (32765 : ℚ)/32768| ≤ 1/32767) := by
  have hfl : ⌊(65533 : ℚ)/65536 * 32767⌋ = 32765 := by
    apply Int.floor_eq_iff.mpr
    constructor
    · push_cast
      norm_num
    · push_cast
      norm_num
  have h1 : rustClampQ ((65533 : ℚ)/65536) (-1) 1 = (65533 : ℚ)/65536 := by
    unfold rustClampQ
    rw [max_eq_left (by norm_num), min_eq_left (by norm_num)]
  have h2 : rustTruncToInt ((65533 : ℚ)/65536 * 32767) = 32765 := by
    unfold rustTruncToInt
    rw [if_pos (by norm_num)]
    exact hfl
  have h3 : f32_as_i16 ((65533 : ℚ)/65536 * 32767) = 32765 := by
    unfold f32_as_i16
    rw [h2, min_eq_right (by norm_num), max_eq_right (by norm_num)]
  refine ⟨?_, ?_, ?_⟩
  · unfold wav_round_trip save_wav_samples load_wav_samples_16bit
    simp only [List.map_cons, List.map_nil, h1, h3]
    norm_num
  · rw [abs_of_pos (by norm_num)]
    norm_num
  · rw [abs_of_pos (by norm_num)]
    norm_num

/-- Claim C9 as amended: saving then loading preserves the sample count,
and for samples within the unit interval every loaded sample differs from
the original by at most 1/16384 (instead of the claimed 1/32767). -/
theorem c9_wav_round_trip_amended (samples : List ℚ)
    (hb : ∀ s ∈ samples, -1 ≤ s ∧ s ≤ 1) :
    (wav_round_trip samples).length = samples.length
    ∧ ∀ i < samples.length,
        |samples.getD i 0 - (wav_round_trip samples).getD i 0| ≤ 1/16384 := by
  constructor
  · unfold wav_round_trip save_wav_samples load_wav_samples_16bit
    simp
  · intro i hi
    have hget : samples.getD i 0 = samples[i] := by
      simp [List.getD_eq_getElem?_getD, List.getElem?_eq_getElem hi]
    have hrt : (wav_round_trip samples).getD i 0 =
        (f32_as_i16 (rustClampQ (samples[i]) (-1) 1 * 32767) : ℚ) / 32768 := by
      unfold wav_round_trip save_wav_samples load_wav_samples_16bit
      have hlen1 : i < (samples.map
          (fun s => f32_as_i16 (rustClampQ s (-1) 1 * 32767))).length := by
        simpa using hi
      have hlen2 : i < ((samples.map
          (fun s => f32_as_i16 (rustClampQ s (-1) 1 * 32767))).map
            (fun s : ℤ => (s : ℚ) / 32768)).length := by
        simpa using hi
      rw [List.getD_eq_getElem?_getD, List.getElem?_eq_getElem hlen2]
      simp [List.getElem_map]
    rw [hget, hrt]
    obtain ⟨hl, hr⟩ := hb (samples[i]) (List.getElem_mem hi)
    exact wav_sample_err _ hl hr

/-- Witness for C9 at the singleton sample one half: the round trip keeps
one sample and the error bound 1/16384 holds. -/
theorem c9_witness :
    (wav_round_trip [(1 : ℚ)/2]).length = ([(1 : ℚ)/2] : List ℚ).length
    ∧ ∀ i < ([(1 : ℚ)/2] : List ℚ).length,
        |([(1 : ℚ)/2] : List ℚ).getD i 0 - (wav_round_trip [(1 : ℚ)/2]).getD i 0|
          ≤ 1/16384 :=
  c9_wav_round_trip_amended [(1 : ℚ)/2] (by norm_num)

theorem decode_tdt_step_t_advance (blankId : ℤ) (p : TdtPrediction)
    (s : TdtState) : s.t + 1 ≤ (decode_tdt_step blankId p s).t := by
  unfold decode_tdt_step
  dsimp only
  split_ifs <;> simp

theorem decode_tdt_loop_isSome (blankId : ℤ) (oracle : TdtState → TdtPrediction)
    (encoderLen : ℕ) :
    ∀ (fuel : ℕ) (s : TdtState), (encoderLen : ℤ) - s.t ≤ fuel →
      (decode_tdt_loop blankId oracle encoderLen fuel s).isSome = true := by
  intro fuel
  induction fuel with
  | zero =>
    intro s h
    unfold decode_tdt_loop
    rw [if_neg (by omega)]
    rfl
  | succ n ih =>
    intro s h
    unfold decode_tdt_loop
    by_cases hlt : s.t < (encoderLen : ℤ)
    · rw [if_pos hlt]
      apply ih
      have := decode_tdt_step_t_advance blankId (oracle s) s
      push_cast at h ⊢
      omega
    · rw [if_neg hlt]
      rfl

/-- Claim C6: the TDT greedy decoding loop always terminates — every
iteration advances t by max(skip, 1) which is at least 1, so encoderLen
iterations suffice for any model outputs; moreover skip is forced to 1
when the per-frame emission counter reaches 5 and when the token is blank
with skip 0, each making the loop advance by exactly one frame. -/
theorem c6_decode_tdt_terminates (blankId : ℤ)
    (oracle : TdtState → TdtPrediction) (encoderLen : ℕ) :
    (decode_tdt_static blankId oracle encoderLen).isSome = true
    ∧ (∀ p s, s.t + 1 ≤ (decode_tdt_step blankId p s).t)
    ∧ (∀ p s, p.bestToken = blankId → p.rawSkip ≤ 0 →
        (decode_tdt_step blankId p s).t = s.t + 1)
    ∧ (∀ p s, p.bestToken ≠ blankId → 5 ≤ s.tokensThisFrame + 1 →
        p.rawSkip ≤ 0 → (decode_tdt_step blankId p s).t = s.t + 1) := by
  refine ⟨?_, decode_tdt_step_t_advance blankId, ?_, ?_⟩
  · unfold decode_tdt_static
    have h := decode_tdt_loop_isSome blankId oracle encoderLen encoderLen
      ⟨0, blankId, 0, [], []⟩ (by simp)
    obtain ⟨sfin, hl⟩ := Option.isSome_iff_exists.mp h
    rw [hl]
    rfl
  · intro p s hb hskip
    have hnb : ¬ p.bestToken ≠ blankId := fun h => h hb
    have hns : ¬ p.rawSkip > 0 := by omega
    unfold decode_tdt_step
    rw [if_neg hnb]
    dsimp only
    rw [if_neg hns]
    dsimp only
    by_cases h5 : s.tokensThisFrame ≥ 5
    · rw [if_pos h5]
      dsimp only
      have hq : ¬ (p.bestToken = blankId ∧ (1 : ℤ) = 0) := by
        rintro ⟨_, hone⟩
        cases hone
      rw [if_neg hq]
      simp
    · rw [if_neg h5]
      dsimp only
      by_cases hz : p.rawSkip = 0
      · have hq : p.bestToken = blankId ∧ p.rawSkip = 0 := ⟨hb, hz⟩
        rw [if_pos hq]
        simp
      · have hq : ¬ (p.bestToken = blankId ∧ p.rawSkip = 0) := fun h => hz h.2
        rw [if_neg hq]
        dsimp only
        have hm : max p.rawSkip 1 = 1 := max_eq_right (by omega)
        simp [hm]
  · intro p s hb h5 hskip
    have hns : ¬ p.rawSkip > 0 := by omega
    unfold decode_tdt_step
    rw [if_pos hb]
    dsimp only
    rw [if_neg hns]
    dsimp only
    rw [if_pos (show s.tokensThisFrame + 1 ≥ 5 from h5)]
    dsimp only
    have hq : ¬ (p.bestToken = blankId ∧ (1 : ℤ) = 0) := fun h => hb h.1
    rw [if_neg hq]
    simp

/-- Witness for C6: with blank id 0, an oracle that always answers token 0
with raw skip 0, and three encoder frames, decoding terminates; and the
two forcing clauses hold at a concrete prediction and state. -/
theorem c6_witness :
    (decode_tdt_static 0 (fun _ => ⟨0, 0⟩) 3).isSome = true
    ∧ (decode_tdt_step 0 ⟨0, 0⟩ ⟨0, 0, 0, [], []⟩).t = 0 + 1
    ∧ (decode_tdt_step 0 ⟨7, 0⟩ ⟨2, 0, 4, [], []⟩).t = 2 + 1 := by
  refine ⟨(c6_decode_tdt_terminates 0 (fun _ => ⟨0, 0⟩) 3).1, ?_, ?_⟩
  · exact (c6_decode_tdt_terminates 0 (fun _ => ⟨0, 0⟩) 3).2.2.1 ⟨0, 0⟩
      ⟨0, 0, 0, [], []⟩ rfl (by decide)
  · exact (c6_decode_tdt_terminates 0 (fun _ => ⟨0, 0⟩) 3).2.2.2 ⟨7, 0⟩
      ⟨2, 0, 4, [], []⟩ (by decide) (by decide) (by decide)

theorem VideoEncoder.finalize_chunk_framesWritten (e : EncoderState) :
    (VideoEncoder.finalize_chunk e).1.framesWritten = e.framesWritten := by
  unfold VideoEncoder.finalize_chunk
  split_ifs <;> try rfl
  cases e.chunkStartTime <;> rfl

theorem VideoEncoder.add_frame_framesWritten (dur : ℕ) (e : EncoderState)
    (d : List ℕ) (ts : ℤ) :
    (VideoEncoder.add_frame dur e d ts).framesWritten =
      e.framesWritten ++ [d] := by
  unfold VideoEncoder.add_frame
  cases hst : e.chunkStartTime
  all_goals
    simp only [hst, Option.isNone_none, Option.isNone_some, if_true,
      Bool.false_eq_true, if_false]
  all_goals split_ifs
  all_goals simp_all [VideoEncoder.finalize_chunk_framesWritten]
  all_goals split_ifs
  all_goals simp_all [VideoEncoder.finalize_chunk_framesWritten]

theorem capture_accept_spec (dur : ℕ) (s : MonitorRecorderState)
    (db : FramesDb) (frame : CapturedFrame) (frameHash : ℕ) (flush : Bool) :
    (MonitorRecorder.capture_accept dur s db frame frameHash flush).1.skippedFrames
      = s.skippedFrames
    ∧ (MonitorRecorder.capture_accept dur s db frame frameHash
        flush).1.enc.framesWritten = s.enc.framesWritten ++ [frame.data]
    ∧ (MonitorRecorder.capture_accept dur s db frame frameHash
        flush).1.lastFrameHash = some frameHash
    ∧ ∃ row : NewFrame, row.frameHash = some (u64_as_i64 frameHash)
        ∧ row.timestamp = frame.timestamp
        ∧ rowsView (MonitorRecorder.capture_accept dur s db frame frameHash
              flush).2.1
            (MonitorRecorder.capture_accept dur s db frame frameHash flush).1
          = rowsView db s ++ [row] := by
  have hwritten : ∀ (e : EncoderState) (d : List ℕ) (ts : ℤ),
      (VideoEncoder.add_frame dur e d ts).framesWritten =
        e.framesWritten ++ [d] := fun e d ts =>
    VideoEncoder.add_frame_framesWritten dur e d ts
  have hflush : ∀ (s1 : MonitorRecorderState) (db1 : FramesDb),
      (match MonitorRecorder.flush_frames s1 db1 with
        | Except.ok (s2, db2) => (s2, db2, Except.ok true)
        | Except.error e => (s1, db1, Except.error e) :
          MonitorRecorderState × FramesDb × Except (List Char) Bool).1.skippedFrames
          = s1.skippedFrames
      ∧ (match MonitorRecorder.flush_frames s1 db1 with
          | Except.ok (s2, db2) => (s2, db2, Except.ok true)
          | Except.error e => (s1, db1, Except.error e) :
            MonitorRecorderState × FramesDb
              × Except (List Char) Bool).1.enc = s1.enc
      ∧ (match MonitorRecorder.flush_frames s1 db1 with
          | Except.ok (s2, db2) => (s2, db2, Except.ok true)
          | Except.error e => (s1, db1, Except.error e) :
            MonitorRecorderState × FramesDb
              × Except (List Char) Bool).1.lastFrameHash = s1.lastFrameHash
      ∧ rowsView
          (match MonitorRecorder.flush_frames s1 db1 with
            | Except.ok (s2, db2) => (s2, db2, Except.ok true)
            | Except.error e => (s1, db1, Except.error e) :
              MonitorRecorderState × FramesDb
                × Except (List Char) Bool).2.1
          (match MonitorRecorder.flush_frames s1 db1 with
            | Except.ok (s2, db2) => (s2, db2, Except.ok true)
            | Except.error e => (s1, db1, Except.error e) :
              MonitorRecorderState × FramesDb
                × Except (List Char) Bool).1 = rowsView db1 s1 := by
    intro s1 db1
    unfold MonitorRecorder.flush_frames
    by_cases hp : s1.pendingFrames.isEmpty
    · rw [if_pos hp]
      refine ⟨rfl, rfl, rfl, rfl⟩
    · rw [if_neg hp]
      cases hb : insert_frames_batch db1 s1.pendingFrames with
      | mk db2 res =>
        cases res with
        | ok ids =>
          obtain ⟨hids, hframes, _, _, _⟩ :=
            insert_frames_batch_ok db1 s1.pendingFrames db2 ids hb
          have hlen : s1.pendingFrames.length ≤ ids.length := by
            rw [hids]
            simp
          refine ⟨rfl, rfl, rfl, ?_⟩
          unfold rowsView
          dsimp only
          rw [hframes]
          simp [List.map_snd_zip ids s1.pendingFrames hlen]
        | error e =>
          refine ⟨rfl, rfl, rfl, rfl⟩
  unfold MonitorRecorder.capture_accept MonitorRecorder.start_new_chunk
    insert_video_chunk
  dsimp only
  cases hc : s.currentChunkId with
  | none =>
    simp only [hc, Option.isNone_none, eq_self_iff_true, if_true]
    try dsimp only
    simp only [List.length_append, List.length_singleton]
    by_cases hfl : 30 ≤ s.pendingFrames.length + 1 ∨ flush = true
    · rw [if_pos hfl]
      refine ⟨(hflush _ _).1, ?_, (hflush _ _).2.2.1, ?_⟩
      · rw [(hflush _ _).2.1]
        dsimp only
        exact hwritten _ _ _
      · refine ⟨⟨db.nextChunkRowid, 0, frame.timestamp, none, none, none, true,
          some (u64_as_i64 frameHash)⟩, rfl, rfl, ?_⟩
        rw [(hflush _ _).2.2.2]
        unfold rowsView
        simp
    · rw [if_neg hfl]
      refine ⟨rfl, hwritten _ _ _, rfl, ?_⟩
      refine ⟨⟨db.nextChunkRowid, 0, frame.timestamp, none, none, none, true,
          some (u64_as_i64 frameHash)⟩, rfl, rfl, ?_⟩
      unfold rowsView
      simp
  | some cid =>
    simp only [hc, Option.isNone_some, Bool.false_eq_true, if_false]
    try dsimp only
    simp only [List.length_append, List.length_singleton]
    by_cases hfl : 30 ≤ s.pendingFrames.length + 1 ∨ flush = true
    · rw [if_pos hfl]
      refine ⟨(hflush _ _).1, ?_, (hflush _ _).2.2.1, ?_⟩
      · rw [(hflush _ _).2.1]
        dsimp only
        exact hwritten _ _ _
      · refine ⟨⟨cid, s.frameIndex, frame.timestamp, none, none, none, true,
          some (u64_as_i64 frameHash)⟩, rfl, rfl, ?_⟩
        rw [(hflush _ _).2.2.2]
        unfold rowsView
        simp
    · rw [if_neg hfl]
      refine ⟨rfl, hwritten _ _ _, rfl, ?_⟩
      refine ⟨⟨cid, s.frameIndex, frame.timestamp, none, none, none, true,
          some (u64_as_i64 frameHash)⟩, rfl, rfl, ?_⟩
      unfold rowsView
      simp

/-- Claim C7: in the per-monitor loop a captured frame is dropped — the
skipped counter incremented, nothing buffered, nothing fed to the encoder,
the database untouched — precisely when a last accepted hash exists whose
Hamming distance to the new perceptual hash is at most 5; in every other
case (including no previous hash) the frame is accepted: the hash is
remembered, the raw frame goes to the encoder, and exactly one new frame
row carrying the hash becomes visible in the pending buffer or the
database. -/
theorem c7_capture_frame_dedup (dur : ℕ) (s : MonitorRecorderState)
    (db : FramesDb) (frame : CapturedFrame) (flush : Bool) :
    ((∃ last, s.lastFrameHash = some last
        ∧ hash_distance (compute_perceptual_hash frame) last ≤ 5) →
      MonitorRecorder.capture_frame dur s db (some frame) flush =
        ({ s with skippedFrames := s.skippedFrames + 1 }, db, Except.ok false))
    ∧ ((∀ last, s.lastFrameHash = some last →
        ¬ hash_distance (compute_perceptual_hash frame) last ≤ 5) →
      (MonitorRecorder.capture_frame dur s db (some frame)
          flush).1.skippedFrames = s.skippedFrames
      ∧ (MonitorRecorder.capture_frame dur s db (some frame)
          flush).1.enc.framesWritten = s.enc.framesWritten ++ [frame.data]
      ∧ (MonitorRecorder.capture_frame dur s db (some frame)
          flush).1.lastFrameHash = some (compute_perceptual_hash frame)
      ∧ ∃ row : NewFrame,
          row.frameHash = some (u64_as_i64 (compute_perceptual_hash frame))
          ∧ row.timestamp = frame.timestamp
          ∧ rowsView (MonitorRecorder.capture_frame dur s db (some frame)
                flush).2.1
              (MonitorRecorder.capture_frame dur s db (some frame) flush).1
            = rowsView db s ++ [row]) := by
  constructor
  · rintro ⟨last, hlast, hdist⟩
    unfold MonitorRecorder.capture_frame
    rw [hlast]
    dsimp only
    rw [if_pos hdist]
  · intro hno
    unfold MonitorRecorder.capture_frame
    cases hlast : s.lastFrameHash with
    | some last =>
      dsimp only
      rw [if_neg (hno last hlast)]
      exact capture_accept_spec dur s db frame _ flush
    | none =>
      dsimp only
      exact capture_accept_spec dur s db frame _ flush

/-- Witness for C7: with a last accepted hash 0 and an identical one-pixel
frame (hash 0, distance 0), capture_frame drops the frame, bumps the
skipped counter and touches neither the buffer nor the database. -/
theorem c7_witness :
    MonitorRecorder.capture_frame 5 witnessRecState witnessDb
        (some zeroPixelFrame) false =
      ({ witnessRecState with skippedFrames := witnessRecState.skippedFrames + 1 },
        witnessDb, Except.ok false) :=
  (c7_capture_frame_dedup 5 witnessRecState witnessDb zeroPixelFrame false).1
    ⟨0, rfl, by decide⟩

/-- Claim C2 refuted by the code: after the second frame the encoder has
rolled the chunk over (its chunk index advanced, its state reset, the pipe
closed), yet not a single ChunkFinalizedEvent was published — and the
recorder still believes chunk 1 is current. Even a subsequent
MonitorRecorder::finalize_chunk emits nothing, because the encoder frame
count is already 0, so the rolled-over chunk never gets its event. -/
theorem c2_counterexample :
    (c2Step2.1.enc.chunkIndex = 1 ∧ c2Step2.1.enc.frameCount = 0
      ∧ c2Step2.1.enc.pipeOpen = false)
    ∧ c2Step2.1.events = []
    ∧ c2Step2.1.currentChunkId = some 1
    ∧ (c2Step2.2.1.frames = [] ∧ c2Step2.1.pendingFrames.length = 2)
    ∧ (MonitorRecorder.finalize_chunk c2Step2.1 c2Step2.2.1).map
        (fun r => r.1.events) = Except.ok [] := by
  exact ⟨⟨rfl, rfl, rfl⟩, rfl, rfl, ⟨rfl, rfl⟩, rfl⟩

theorem foldl_mod_add (l : List ℕ) :
    ∀ acc, acc < 2 ^ 64 →
      l.foldl (fun a b => (a + b) % 2 ^ 64) acc = (acc + l.sum) % 2 ^ 64 := by
  induction l with
  | nil =>
    intro acc hacc
    simp only [List.foldl_nil, List.sum_nil, Nat.add_zero]
    exact (Nat.mod_eq_of_lt hacc).symm
  | cons b l ih =>
    intro acc hacc
    simp only [List.foldl_cons, List.sum_cons]
    rw [ih _ (Nat.mod_lt _ (by positivity))]
    rw [Nat.mod_add_mod]
    ring_nf

theorem block_inner_fold (f : CapturedFrame) (y : ℕ) (xs : List ℕ)
    (hg : ∀ x ∈ xs, (y * f.width + x) * 4 + 2 < f.data.length) :
    ∀ sc : ℕ × ℕ,
    xs.foldl
      (fun sc x =>
        let idx := (y * f.width + x) * 4
        if idx + 2 < f.data.length then
          (sc.1 + lum (byteAt f idx) (byteAt f (idx + 1)) (byteAt f (idx + 2)),
           sc.2 + 1)
        else sc) sc
      = (sc.1 + (xs.map (fun x => lumAt f y x)).sum, sc.2 + xs.length) := by
  induction xs with
  | nil => intro sc; simp
  | cons x xs ih =>
    intro sc
    simp only [List.foldl_cons]
    have hx := hg x (List.mem_cons_self x xs)
    rw [if_pos hx]
    rw [ih (fun x hx => hg x (List.mem_cons_of_mem _ hx))]
    simp only [List.map_cons, List.sum_cons, List.length_cons, Prod.mk.injEq,
      lumAt]
    constructor
    · ring
    · ring

theorem block_outer_fold (f : CapturedFrame) (sx w : ℕ) (ys : List ℕ)
    (hg : ∀ y ∈ ys, ∀ x ∈ List.range' sx w,
      (y * f.width + x) * 4 + 2 < f.data.length) :
    ∀ sc : ℕ × ℕ,
    ys.foldl
      (fun sc y =>
        (List.range' sx w).foldl
          (fun sc x =>
            let idx := (y * f.width + x) * 4
            if idx + 2 < f.data.length then
              (sc.1 + lum (byteAt f idx) (byteAt f (idx + 1)) (byteAt f (idx + 2)),
               sc.2 + 1)
            else sc) sc) sc
      = (sc.1 + (ys.map (fun y =>
          ((List.range' sx w).map (fun x => lumAt f y x)).sum)).sum,
         sc.2 + ys.length * w) := by
  induction ys with
  | nil => intro sc; simp
  | cons y ys ih =>
    intro sc
    simp only [List.foldl_cons]
    rw [block_inner_fold f y (List.range' sx w)
      (hg y (List.mem_cons_self y ys)) sc]
    rw [ih (fun y hy => hg y (List.mem_cons_of_mem _ hy))]
    simp only [List.map_cons, List.sum_cons, List.length_cons,
      List.length_range', Prod.mk.injEq]
    constructor
    · ring
    · ring

theorem codeBlockSumCount_eq (f : CapturedFrame) (sx sy w h : ℕ)
    (hg : ∀ y ∈ List.range' sy h, ∀ x ∈ List.range' sx w,
      (y * f.width + x) * 4 + 2 < f.data.length) :
    codeBlockSumCount f sx (sx + w) sy (sy + h) =
      (((List.range' sy h).map (fun y =>
          ((List.range' sx w).map (fun x => lumAt f y x)).sum)).sum,
       h * w) := by
  unfold codeBlockSumCount
  rw [show sx + w - sx = w from by omega, show sy + h - sy = h from by omega]
  rw [block_outer_fold f sx w (List.range' sy h) hg (0, 0)]
  simp [List.length_range']

theorem bits_fold (P : ℕ → Prop) [DecidablePred P] :
    ∀ (n k acc : ℕ), acc < 2 ^ k →
    ((List.range' k n).foldl
        (fun h i => if P i then h ||| (1 <<< i) else h) acc) < 2 ^ (k + n)
    ∧ (∀ j, k ≤ j → j < k + n →
        ((List.range' k n).foldl
          (fun h i => if P i then h ||| (1 <<< i) else h) acc).testBit j
          = decide (P j))
    ∧ (∀ j, j < k →
        ((List.range' k n).foldl
          (fun h i => if P i then h ||| (1 <<< i) else h) acc).testBit j
          = acc.testBit j) := by
  intro n
  induction n with
  | zero =>
    intro k acc hacc
    refine ⟨by simpa using hacc, ?_, ?_⟩
    · intro j h1 h2
      omega
    · intro j hj
      rfl
  | succ n ih =>
    intro k acc hacc
    rw [List.range'_succ]
    simp only [List.foldl_cons]
    have hshift : (1 <<< k) = 2 ^ k := Nat.one_shiftLeft k
    have hacc1 : (if P k then acc ||| (1 <<< k) else acc) < 2 ^ (k + 1) := by
      by_cases hp : P k
      · rw [if_pos hp, hshift]
        exact Nat.or_lt_two_pow
          (lt_of_lt_of_le hacc (Nat.pow_le_pow_right (by norm_num) (by omega)))
          (Nat.pow_lt_pow_right (by norm_num) (by omega))
      · rw [if_neg hp]
        exact lt_of_lt_of_le hacc (Nat.pow_le_pow_right (by norm_num) (by omega))
    obtain ⟨ihb, ihin, ihlow⟩ := ih (k + 1) _ hacc1
    have hksucc : k + 1 + n = k + (n + 1) := by omega
    refine ⟨by rw [← hksucc]; exact ihb, ?_, ?_⟩
    · intro j h1 h2
      by_cases hjk : j = k
      · subst hjk
        rw [ihlow j (by omega)]
        by_cases hp : P j
        · rw [if_pos hp, hshift, Nat.testBit_lor]
          rw [Nat.testBit_lt_two_pow hacc, Nat.testBit_two_pow]
          simp [hp]
        · rw [if_neg hp]
          rw [Nat.testBit_lt_two_pow hacc]
          simp [hp]
      · exact ihin j (by omega) (by omega)
    · intro j hj
      rw [ihlow j (by omega)]
      by_cases hp : P k
      · rw [if_pos hp, hshift, Nat.testBit_lor, Nat.testBit_two_pow]
        have : ¬ k = j := by omega
        simp [this]
      · rw [if_neg hp]

theorem mem_range'_bounds {m s n : ℕ} (h : m ∈ List.range' s n) :
    s ≤ m ∧ m < s + n := by
  obtain ⟨i, hi, rfl⟩ := List.mem_range'.mp h
  omega

theorem block_guard (f : CapturedFrame)
    (hlen : f.data.length = f.width * f.height * 4) (y x : ℕ)
    (hy : y < f.height) (hx : x < f.width) :
    (y * f.width + x) * 4 + 2 < f.data.length := by
  have hyx : y * f.width + x < f.height * f.width := by
    calc y * f.width + x < y * f.width + f.width := Nat.add_lt_add_left hx _
    _ = (y + 1) * f.width := by ring
    _ ≤ f.height * f.width := Nat.mul_le_mul_right _ (by omega)
  have hlen2 : f.data.length = f.height * f.width * 4 := by rw [hlen]; ring
  rw [hlen2]
  generalize hK : f.height * f.width = K at hyx ⊢
  generalize ht : y * f.width + x = t at hyx ⊢
  omega

set_option maxRecDepth 4096 in

theorem codeBlockVal_eq_spec (f : CapturedFrame) (hw : 8 ≤ f.width)
    (hh : 8 ≤ f.height) (hlen : f.data.length = f.width * f.height * 4)
    (i : ℕ) (hi : i < 64) :
    (if 0 < (codeBlockSumCount f (i % 8 * (f.width / 8))
        (min (i % 8 * (f.width / 8) + f.width / 8) f.width)
        (i / 8 * (f.height / 8))
        (min (i / 8 * (f.height / 8) + f.height / 8) f.height)).2 then
      (codeBlockSumCount f (i % 8 * (f.width / 8))
        (min (i % 8 * (f.width / 8) + f.width / 8) f.width)
        (i / 8 * (f.height / 8))
        (min (i / 8 * (f.height / 8) + f.height / 8) f.height)).1 /
      (codeBlockSumCount f (i % 8 * (f.width / 8))
        (min (i % 8 * (f.width / 8) + f.width / 8) f.width)
        (i / 8 * (f.height / 8))
        (min (i / 8 * (f.height / 8) + f.height / 8) f.height)).2
    else 0) = specBlockAvg f i := by
  have h8h : 8 * (f.height / 8) ≤ f.height := by
    calc 8 * (f.height / 8) = f.height / 8 * 8 := by ring
    _ ≤ f.height := Nat.div_mul_le_self _ _
  have h8w : 8 * (f.width / 8) ≤ f.width := by
    calc 8 * (f.width / 8) = f.width / 8 * 8 := by ring
    _ ≤ f.width := Nat.div_mul_le_self _ _
  have hdiv : i / 8 < 8 := by omega
  have hmod : i % 8 < 8 := by omega
  have hYe : i / 8 * (f.height / 8) + f.height / 8 ≤ f.height := by
    calc i / 8 * (f.height / 8) + f.height / 8
        = (i / 8 + 1) * (f.height / 8) := by ring
    _ ≤ 8 * (f.height / 8) := Nat.mul_le_mul_right _ (by omega)
    _ ≤ f.height := h8h
  have hXe : i % 8 * (f.width / 8) + f.width / 8 ≤ f.width := by
    calc i % 8 * (f.width / 8) + f.width / 8
        = (i % 8 + 1) * (f.width / 8) := by ring
    _ ≤ 8 * (f.width / 8) := Nat.mul_le_mul_right _ (by omega)
    _ ≤ f.width := h8w
  have hguard : ∀ y ∈ List.range' (i / 8 * (f.height / 8)) (f.height / 8),
      ∀ x ∈ List.range' (i % 8 * (f.width / 8)) (f.width / 8),
      (y * f.width + x) * 4 + 2 < f.data.length := by
    intro y hy x hx
    obtain ⟨_, hy2⟩ := mem_range'_bounds hy
    obtain ⟨_, hx2⟩ := mem_range'_bounds hx
    exact block_guard f hlen y x (by omega) (by omega)
  rw [min_eq_left hYe, min_eq_left hXe]
  rw [codeBlockSumCount_eq f _ _ _ _ hguard]
  have hbw : 0 < f.width / 8 := by
    have := Nat.one_le_div_iff (show 0 < 8 by norm_num) |>.mpr hw
    omega
  have hbh : 0 < f.height / 8 := by
    have := Nat.one_le_div_iff (show 0 < 8 by norm_num) |>.mpr hh
    omega
  rw [if_pos (Nat.mul_pos hbh hbw)]
  unfold specBlockAvg
  rw [Nat.mul_comm (f.height / 8) (f.width / 8)]
  congr 1
  simp only [List.range'_eq_map_range, List.map_map, Function.comp]
  rfl

/-- Claim C8: for a well-formed RGBA buffer and an image at least 8 by 8,
the perceptual hash is a 64-bit value whose bit i (row-major, low bit
first) is set exactly when block i's average integer-scaled luminance is
at least the integer mean of all 64 block averages; for an image smaller
than the 8 by 8 grid, the hash is the additive (wrapping) sum of the raw
bytes. -/
theorem c8_perceptual_hash (f : CapturedFrame)
    (hlen : f.data.length = f.width * f.height * 4) :
    (8 ≤ f.width → 8 ≤ f.height →
      compute_perceptual_hash f < 2 ^ 64
      ∧ ∀ i, i < 64 → (compute_perceptual_hash f).testBit i =
          decide (specMean f ≤ specBlockAvg f i))
    ∧ ((f.width < 8 ∨ f.height < 8) →
      compute_perceptual_hash f = f.data.sum % 2 ^ 64) := by
  constructor
  · intro hw hh
    unfold compute_perceptual_hash
    have hne : ¬ (f.width / 8 = 0 ∨ f.height / 8 = 0) := by
      rintro (h | h) <;> omega
    rw [if_neg hne]
    have hbv : (List.range 64).map (fun i =>
        let startY := i / 8 * (f.height / 8)
        let startX := i % 8 * (f.width / 8)
        let endY := min (startY + f.height / 8) f.height
        let endX := min (startX + f.width / 8) f.width
        let sc := codeBlockSumCount f startX endX startY endY
        if 0 < sc.2 then sc.1 / sc.2 else 0) =
        (List.range 64).map (specBlockAvg f) := by
      apply List.map_congr_left
      intro i hi
      have hi64 : i < 64 := List.mem_range.mp hi
      exact codeBlockVal_eq_spec f hw hh hlen i hi64
    rw [hbv]
    have hfold := bits_fold
      (fun i => ((List.range 64).map (specBlockAvg f)).getD i 0 ≥
        ((List.range 64).map (specBlockAvg f)).sum / 64) 64 0 0 (by norm_num)
    rw [← List.range_eq_range'] at hfold
    obtain ⟨hbound, hbits, _⟩ := hfold
    have hgetD : ∀ i, i < 64 →
        ((List.range 64).map (specBlockAvg f)).getD i 0 = specBlockAvg f i := by
      intro i hi
      rw [List.getD_eq_getElem?_getD, List.getElem?_map, List.getElem?_range hi]
      rfl
    have hmean : ((List.range 64).map (specBlockAvg f)).sum / 64 = specMean f := rfl
    constructor
    · simpa using hbound
    · intro i hi
      rw [hbits i (by omega) (by omega)]
      apply decide_eq_decide.mpr
      simp only [ge_iff_le, hgetD i hi, hmean]
  · intro hsmall
    unfold compute_perceptual_hash
    have hz : f.width / 8 = 0 ∨ f.height / 8 = 0 := by
      rcases hsmall with h | h
      · left; omega
      · right; omega
    rw [if_pos hz]
    rw [foldl_mod_add f.data 0 (by positivity)]
    rw [Nat.zero_add]

/-- Witness for C8: at the all-black 8 by 8 frame the grid branch applies
(every block average 0, mean 0, so bit 0 is set), and at the one-pixel
frame the degenerate branch returns the byte sum. -/
theorem c8_witness :
    zeroFrame8.data.length = zeroFrame8.width * zeroFrame8.height * 4
    ∧ (compute_perceptual_hash zeroFrame8).testBit 0 =
        decide (specMean zeroFrame8 ≤ specBlockAvg zeroFrame8 0)
    ∧ compute_perceptual_hash zeroPixelFrame = zeroPixelFrame.data.sum % 2 ^ 64 := by
  have h1 : zeroFrame8.data.length = zeroFrame8.width * zeroFrame8.height * 4 := by
    norm_num [zeroFrame8]
  refine ⟨h1, ?_, ?_⟩
  · exact ((c8_perceptual_hash zeroFrame8 h1).1 (by norm_num [zeroFrame8])
      (by norm_num [zeroFrame8])).2 0 (by norm_num)
  · exact (c8_perceptual_hash zeroPixelFrame rfl).2
      (Or.inl (by norm_num [zeroPixelFrame]))

end Memoire

